import Mathlib

/-!
Verification development for the `etherscan_abi_downloader` repository
(`src/abi_downloader.rs`, `src/main.rs`).

The Rust code is shallowly embedded:
* `keccak256` embeds the `tiny_keccak::Keccak::v256` hash used by the
  selector functions (Keccak-256: rate 136, pad `0x01 … 0x80`), with
  64-bit lanes as `Nat` reduced mod `2 ^ 64`.
* `create_function_signature`, `create_event_signature`,
  `create_function_selector`, `create_event_selector`, `process_contract`,
  `write_parquet`, `concatenate_parquet_files`, `read_addresses` and
  `download_abis` translate the functions of `abi_downloader.rs` one for
  one.  Effectful collaborators (the etherscan client, the filesystem,
  the polars library, the per-line reader) become explicit parameters or
  explicit state, following the dependency-injection reading of the spec.
-/

namespace AbiDownloader

/-! ## Keccak-256 (embedding of `tiny_keccak::Keccak::v256`) -/

/-- 2 to the 64th power: lanes of the Keccak state live below this bound. -/
def w64 : Nat := 2 ^ 64

/-- Rotate a 64-bit lane left by `n` (0 ≤ n < 64). -/
def rotl64 (x n : Nat) : Nat :=
  ((x <<< n) ||| (x >>> (64 - n))) % w64

/-- The 24 round constants of Keccak-f[1600]. -/
def roundConstants : List Nat :=
  [1, 32898, 9223372036854808714,
   9223372039002292224, 32907, 2147483649,
   9223372039002292353, 9223372036854808585, 138,
   136, 2147516425, 2147483658,
   2147516555, 9223372036854775947, 9223372036854808713,
   9223372036854808579, 9223372036854808578, 9223372036854775936,
   32778, 9223372039002259466, 9223372039002292353,
   9223372036854808704, 2147483649, 9223372039002292232]

/-- The rho rotation offsets, one row per `y`, indexed within a row by `x`. -/
def rhoOffsets : List (List Nat) :=
  [[0, 1, 62, 28, 27],
   [36, 44, 6, 55, 20],
   [3, 10, 43, 25, 39],
   [41, 45, 15, 21, 8],
   [18, 2, 61, 56, 14]]

/-- Lane `(x, y)` of a 25-lane state (flat index `x + 5 * y`). -/
def lane (s : List Nat) (x y : Nat) : Nat := s.getD (x % 5 + 5 * (y % 5)) 0

/-- Keccak theta step. -/
def thetaStep (s : List Nat) : List Nat :=
  let c := (List.range 5).map fun x =>
    lane s x 0 ^^^ lane s x 1 ^^^ lane s x 2 ^^^ lane s x 3 ^^^ lane s x 4
  let d := (List.range 5).map fun x =>
    c.getD ((x + 4) % 5) 0 ^^^ rotl64 (c.getD ((x + 1) % 5) 0) 1
  (List.range 25).map fun j => s.getD j 0 ^^^ d.getD (j % 5) 0

/-- Keccak rho and pi steps fused: output lane `(X, Y)` is the rotated
source lane `(X + 3Y mod 5, X)`. -/
def rhoPiStep (s : List Nat) : List Nat :=
  (List.range 25).map fun j =>
    let x := (j % 5 + 3 * (j / 5)) % 5
    let y := j % 5
    rotl64 (lane s x y) ((rhoOffsets.getD y []).getD x 0)

/-- Keccak chi step (`not` on a lane is xor with `2 ^ 64 - 1`). -/
def chiStep (s : List Nat) : List Nat :=
  (List.range 25).map fun j =>
    s.getD j 0 ^^^
      ((s.getD ((j % 5 + 1) % 5 + 5 * (j / 5)) 0 ^^^ (w64 - 1)) &&&
        s.getD ((j % 5 + 2) % 5 + 5 * (j / 5)) 0)

/-- One Keccak-f round: theta, rho-pi, chi, then iota (xor the round
constant into lane 0). -/
def keccakRound (s : List Nat) (rc : Nat) : List Nat :=
  let t := chiStep (rhoPiStep (thetaStep s))
  (t.getD 0 0 ^^^ rc) :: t.drop 1

/-- The full 24-round Keccak-f[1600] permutation. -/
def keccakF (s : List Nat) : List Nat :=
  roundConstants.foldl keccakRound s

/-- Interpret up to eight bytes as one little-endian 64-bit lane. -/
def bytesToLane (bs : List Nat) : Nat :=
  bs.foldr (fun b acc => b + 256 * acc) 0

/-- Absorb one 136-byte rate block into the state and permute. -/
def absorbBlock (s : List Nat) (block : List Nat) : List Nat :=
  keccakF ((List.range 25).map fun j =>
    s.getD j 0 ^^^ bytesToLane ((block.drop (8 * j)).take 8))

/-- Keccak multi-rate padding for rate 136 with domain byte `0x01`
(the original Keccak padding used by `tiny_keccak::Keccak`, not the
SHA-3 `0x06` variant). -/
def keccakPad (msg : List Nat) : List Nat :=
  let r := 136 - msg.length % 136
  if r = 1 then msg ++ [0x81]
  else msg ++ 0x01 :: List.replicate (r - 2) 0 ++ [0x80]

/-- Keccak-256 of a byte sequence: absorb every padded block, then read
the first 32 bytes of the state little-endian lane by lane. -/
def keccak256 (msg : List Nat) : List Nat :=
  let padded := keccakPad msg
  let s := (List.range (padded.length / 136)).foldl
    (fun s i => absorbBlock s ((padded.drop (136 * i)).take 136))
    (List.replicate 25 0)
  (List.range 32).map fun i => (s.getD (i / 8) 0 >>> (8 * (i % 8))) % 256

/-! ## Lowercase hex encoding (embedding of `hex::encode`) -/

/-- The lowercase hexadecimal digit for `n < 16`. -/
def hexDigit (n : Nat) : Char :=
  if n < 10 then Char.ofNat (48 + n) else Char.ofNat (87 + n)

/-- Lowercase hex encoding of a byte sequence, two digits per byte. -/
def hexOfBytes (bs : List Nat) : List Char :=
  (bs.map fun b => [hexDigit (b / 16 % 16), hexDigit (b % 16)]).flatten

/-- UTF-8 bytes of a string (embedding of Rust `str::as_bytes`). -/
def strBytes (s : String) : List Nat :=
  (s.data.map fun c => (String.utf8EncodeChar c).map UInt8.toNat).flatten

/-! ## ABI descriptions

`alloy_json_abi`'s `Function`, `Event`, `Param` and `EventParam` are
dependencies of the repository, not part of it.  Their type trees are
embedded following the spec's recursive tagged-variant description
(elementary, fixed/dynamic array of a type, tuple of types), plus one
variant for a declared type whose canonical form cannot be derived, so
that the drop-unresolvable policy of the signature builders is statable. -/

mutual

/-- A declared Solidity parameter type, as the spec's tagged-variant tree. -/
inductive SolType where
  | elem (name : String)
  | arr (t : SolType)
  | farr (t : SolType) (n : Nat)
  | tup (ts : SolTypeList)
  | unresolved

/-- A list of parameter types (spelled out so that recursion over the
nested tuple stays structural). -/
inductive SolTypeList where
  | nil
  | cons (hd : SolType) (tl : SolTypeList)

end

mutual

/-- Modelled from the spec: `alloy_json_abi::Param::selector_type` is
external to this repository.  Canonical ("selector type") projection:
elementary types render as their canonical name, arrays append `[]` or
`[n]`, tuples render the parenthesised comma-joined canonical forms of
their components; a type whose canonical form cannot be derived yields
`none` (the case the spec's drop-unresolvable policy is about). -/
def selectorType : SolType → Option String
  | .elem n => some n
  | .arr t => (selectorType t).map (fun s => s ++ "[]")
  | .farr t n => (selectorType t).map (fun s => s ++ "[" ++ toString n ++ "]")
  | .tup ts => (selectorTypeList ts).map (fun ss => "(" ++ String.intercalate "," ss ++ ")")
  | .unresolved => none

/-- Canonical forms of a list of component types; `none` as soon as one
component cannot be canonicalized. -/
def selectorTypeList : SolTypeList → Option (List String)
  | .nil => some []
  | .cons t ts =>
    match selectorType t, selectorTypeList ts with
    | some s, some ss => some (s :: ss)
    | _, _ => none

end

/-- A function input/output parameter (`alloy_json_abi::Param`). -/
structure Param where
  name : String
  ty : SolType

/-- An event input parameter (`alloy_json_abi::EventParam`). -/
structure EventParam where
  name : String
  ty : SolType
  indexed : Bool

/-- A function description (`alloy_json_abi::Function`). -/
structure Function where
  name : String
  inputs : List Param
  outputs : List Param
  stateMutability : String

/-- An event description (`alloy_json_abi::Event`). -/
structure Event where
  name : String
  inputs : List EventParam
  anonymous : Bool

/-- A contract interface description (`alloy_json_abi::JsonAbi`),
already projected to its ordered function and event sequences. -/
structure JsonAbi where
  functions : List Function
  events : List Event

/-! ## Signature and selector derivation (`abi_downloader.rs` 157-189) -/

/-- Embeds `create_function_signature`: the name followed by the
parenthesised comma-join of the canonicalizable input types
(`filter_map` drops inputs whose selector type is `none`). -/
def create_function_signature (f : Function) : String :=
  f.name ++ "(" ++
    String.intercalate "," (f.inputs.filterMap (fun p => selectorType p.ty)) ++ ")"

/-- Embeds `create_event_signature`. -/
def create_event_signature (e : Event) : String :=
  e.name ++ "(" ++
    String.intercalate "," (e.inputs.filterMap (fun p => selectorType p.ty)) ++ ")"

/-- Embeds `create_function_selector`: `0x` plus the hex encoding of the
first 4 bytes of the Keccak-256 digest of the signature's UTF-8 bytes. -/
def create_function_selector (f : Function) : String :=
  "0x" ++ String.mk (hexOfBytes ((keccak256 (strBytes (create_function_signature f))).take 4))

/-- Embeds `create_event_selector`: `0x` plus the hex encoding of the
full 32-byte Keccak-256 digest of the signature's UTF-8 bytes. -/
def create_event_selector (e : Event) : String :=
  "0x" ++ String.mk (hexOfBytes (keccak256 (strBytes (create_event_signature e))))

/-! ## Records and per-contract processing (`abi_downloader.rs` 19-26, 120-145) -/

/-- One output row (`AbiRecord`). -/
structure AbiRecord where
  record_type : String
  contract_address : String
  name : String
  signature : String
  selector : String

/-- Embeds `process_contract` (the Rust version wraps the pair in `Ok`
but can never fail). -/
def process_contract (address : String) (abi : JsonAbi) :
    List AbiRecord × List AbiRecord :=
  (abi.functions.map fun f =>
    { name := f.name
      record_type := "function"
      contract_address := address.toLower
      signature := create_function_signature f
      selector := create_function_selector f },
   abi.events.map fun e =>
    { name := e.name
      record_type := "event"
      contract_address := address.toLower
      signature := create_event_signature e
      selector := create_event_selector e })

/-! ## Columnar tables (`write_parquet`, `concatenate_parquet_files`)

The polars library is an external collaborator ("write rows to a file",
"concatenate files into one").  A parquet file's content is modelled as a
`Frame`: named string columns in order.  `dataFrameNew` mirrors
`DataFrame::new`, which fails when column lengths differ; reading files
is an explicit `String → Option Frame` map; vertical concatenation is
modelled from the spec's schema-compatible row-sequence description. -/

/-- The content of one columnar table: named string columns in order. -/
structure Frame where
  cols : List (String × List String)

/-- Number of rows of a column list: the first column's length. -/
def colsNumRows : List (String × List String) → Nat
  | [] => 0
  | c :: _ => c.2.length

/-- Row `i` of a column list: the `i`-th entry of every column. -/
def colsRow (cols : List (String × List String)) (i : Nat) : List String :=
  cols.map (fun c => c.2.getD i "")

/-- Number of rows: the length of the first column (0 for no columns). -/
def Frame.numRows (f : Frame) : Nat := colsNumRows f.cols

/-- Row `i` of a frame: the `i`-th entry of every column in order. -/
def Frame.row (f : Frame) (i : Nat) : List String := colsRow f.cols i

/-- The row sequence of a frame. -/
def Frame.rows (f : Frame) : List (List String) :=
  (List.range f.numRows).map (colsRow f.cols)

/-- A frame is rectangular when every column has `numRows` entries. -/
def Frame.Rect (f : Frame) : Prop :=
  ∀ c ∈ f.cols, c.2.length = f.numRows

/-- Embeds `polars::DataFrame::new`: succeeds exactly when all columns
have the same length. -/
def dataFrameNew (cols : List (String × List String)) : Except String Frame :=
  if cols.all (fun c => c.2.length == (cols.headD ("", [])).2.length) then
    .ok ⟨cols⟩
  else .error "could not create DataFrame: column lengths differ"

/-- Embeds `write_parquet`: build the five-column DataFrame from the
record slice; the produced `Frame` is the content written to the file. -/
def write_parquet (records : List AbiRecord) : Except String Frame :=
  dataFrameNew
    [("record_type", records.map fun r => r.record_type),
     ("contract_address", records.map fun r => r.contract_address),
     ("name", records.map fun r => r.name),
     ("signature", records.map fun r => r.signature),
     ("selector", records.map fun r => r.selector)]

/-- The frame `write_parquet` produces for a record slice. -/
def writeFrame (records : List AbiRecord) : Frame :=
  ⟨[("record_type", records.map fun r => r.record_type),
    ("contract_address", records.map fun r => r.contract_address),
    ("name", records.map fun r => r.name),
    ("signature", records.map fun r => r.signature),
    ("selector", records.map fun r => r.selector)]⟩

/-- Modelled from the spec: schema-compatible vertical concatenation of
two frames (same column names in the same order; each output column is
the concatenation of the two input columns). -/
def vconcatFrames (a b : Frame) : Except String Frame :=
  if a.cols.map Prod.fst = b.cols.map Prod.fst then
    .ok ⟨List.zipWith (fun ca cb => (ca.1, ca.2 ++ cb.2)) a.cols b.cols⟩
  else .error "schema mismatch"

/-- Modelled from the spec: `concatenate_parquet_files` reads every
input file (an unreadable file is an error) and concatenates their row
sequences in file order; the returned `Frame` is the content written to
`output_file`.  Zero input files yield a valid zero-row frame. -/
def readFrames (fs : String → Option Frame) : List String → Option (List Frame)
  | [] => some []
  | p :: ps =>
    match fs p, readFrames fs ps with
    | some f, some rest => some (f :: rest)
    | _, _ => none

def concatenate_parquet_files (fs : String → Option Frame)
    (input_files : List String) (output_file : String) : Except String Frame :=
  match readFrames fs input_files with
  | none => .error "failed to read an input parquet file"
  | some [] => .ok ⟨[]⟩
  | some (f :: rest) => rest.foldlM vconcatFrames f

/-! ## Address parsing and the batch loop (`abi_downloader.rs` 72-116) -/

/-- The numeric value of one hexadecimal digit character, if any. -/
def hexCharVal (c : Char) : Option Nat :=
  if '0' ≤ c ∧ c ≤ '9' then some (c.toNat - 48)
  else if 'a' ≤ c ∧ c ≤ 'f' then some (c.toNat - 87)
  else if 'A' ≤ c ∧ c ≤ 'F' then some (c.toNat - 55)
  else none

/-- Decode pairs of hex digits into bytes; `none` on a non-digit or an
odd count. -/
def hexPairsToBytes : List Char → Option (List Nat)
  | [] => some []
  | [_] => none
  | c1 :: c2 :: rest =>
    match hexCharVal c1, hexCharVal c2, hexPairsToBytes rest with
    | some h, some l, some bs => some ((16 * h + l) :: bs)
    | _, _, _ => none

/-- Modelled from the spec: `alloy_primitives::Address::from_str` is
external to this repository.  Parse the canonical hexadecimal
contract-address format into its 20-byte representation: an optional
`0x` prefix followed by exactly 40 hex digits; anything else is
malformed. -/
def parseAddress (s : String) : Option (List Nat) :=
  let cs := if s.data.take 2 = ['0', 'x'] then s.data.drop 2 else s.data
  if cs.length = 40 then hexPairsToBytes cs else none

/-- The per-address function file path
(`functions_dir.join(address + "_functions.parquet")`). -/
def functionFile (dir a : String) : String :=
  dir ++ "/functions/" ++ a ++ "_functions.parquet"

/-- The per-address event file path. -/
def eventFile (dir a : String) : String :=
  dir ++ "/events/" ++ a ++ "_events.parquet"

/-- The warning logged when fetching an address's ABI fails
(`warn!("Failed to fetch ABI for address ...")`). -/
def fetchWarning (a e : String) : String :=
  "Failed to fetch ABI for address " ++ a ++ ": " ++ e

/-- The fatal error produced when an address string fails to parse
(the error the `?` on `Address::from_str` propagates). -/
def addressError (a : String) : String :=
  "failed to parse address " ++ a

/-- The observable outcome of `download_abis`: the two returned path
lists, the warnings logged, and the files written (path and content, in
write order). -/
structure RunState where
  function_files : List String
  event_files : List String
  warnings : List String
  written : List (String × Frame)

/-- The loop body of `download_abis` for one address: parse it (a parse
failure is propagated as a fatal error), fetch its ABI, and either write
the two per-address files and record their paths, or log a warning and
leave the state otherwise unchanged. -/
def downloadStep (fetch : String → Except String JsonAbi) (dir : String)
    (st : RunState) (a : String) : Except String RunState :=
  match parseAddress a with
  | none => .error (addressError a)
  | some _ =>
    match fetch a with
    | .ok abi =>
      let fe := process_contract a abi
      match write_parquet fe.1, write_parquet fe.2 with
      | .ok ffr, .ok efr =>
        .ok { function_files := st.function_files ++ [functionFile dir a]
              event_files := st.event_files ++ [eventFile dir a]
              warnings := st.warnings
              written := st.written ++
                [(functionFile dir a, ffr), (eventFile dir a, efr)] }
      | .error e, _ => .error e
      | .ok _, .error e => .error e
    | .error e =>
      .ok { st with warnings := st.warnings ++ [fetchWarning a e] }

/-- The `for` loop of `download_abis` over the remaining addresses. -/
def downloadLoop (fetch : String → Except String JsonAbi) (dir : String) :
    RunState → List String → Except String RunState
  | st, [] => .ok st
  | st, a :: rest =>
    match downloadStep fetch dir st a with
    | .ok st2 => downloadLoop fetch dir st2 rest
    | .error e => .error e

/-- Embeds `download_abis` with the etherscan client as an injected
fetch capability.  The rate-limit sleep, progress logging and
(idempotent) directory creation have no bearing on the returned value
and are not modelled. -/
def download_abis (fetch : String → Except String JsonAbi)
    (addresses : List String) (dir : String) : Except String RunState :=
  downloadLoop fetch dir ⟨[], [], [], []⟩ addresses

/-! ## Address list reading (`abi_downloader.rs` 72-76) -/

/-- Embeds `read_addresses` with the per-line reader injected: the
reader yields, for each line, either its decoded text or a decode
error, and `filter_map(|line| line.ok())` keeps exactly the decoded
ones. -/
def read_addresses (lines : List (Except String String)) : List String :=
  lines.filterMap (fun l => l.toOption)

/-! ## Helper lemmas -/

/-- A lowercase hexadecimal digit character. -/
def isLowerHex (c : Char) : Bool :=
  ('0' ≤ c && c ≤ '9') || ('a' ≤ c && c ≤ 'f')

/-- The shape demanded by the pattern `0x` followed by exactly `n`
lowercase hex digits (total length `n + 2`). -/
def matchesHexPat (n : Nat) (s : String) : Prop :=
  s.data.length = n + 2 ∧ s.data.take 2 = ['0', 'x'] ∧
    ∀ c ∈ s.data.drop 2, isLowerHex c = true

theorem length_keccak256 (msg : List Nat) : (keccak256 msg).length = 32 := by
  simp [keccak256]

theorem hexDigit_isLowerHex : ∀ n < 16, isLowerHex (hexDigit n) = true := by decide

theorem hexOfBytes_cons (b : Nat) (bs : List Nat) :
    hexOfBytes (b :: bs) =
      hexDigit (b / 16 % 16) :: hexDigit (b % 16) :: hexOfBytes bs := rfl

theorem hexOfBytes_length (bs : List Nat) :
    (hexOfBytes bs).length = 2 * bs.length := by
  induction bs with
  | nil => rfl
  | cons b bs ih => simp [hexOfBytes_cons, ih]; omega

theorem hexOfBytes_isLowerHex (bs : List Nat) :
    ∀ c ∈ hexOfBytes bs, isLowerHex c = true := by
  induction bs with
  | nil => intro c hc; simp [hexOfBytes] at hc
  | cons b bs ih =>
    intro c hc
    rw [hexOfBytes_cons] at hc
    simp only [List.mem_cons] at hc
    rcases hc with hc | hc | hc
    · exact hc ▸ hexDigit_isLowerHex _ (Nat.mod_lt _ (by omega))
    · exact hc ▸ hexDigit_isLowerHex _ (Nat.mod_lt _ (by omega))
    · exact ih c hc

theorem data_0x_append (cs : List Char) :
    (("0x" : String) ++ String.mk cs).data = '0' :: 'x' :: cs := rfl

/-- Each string prefixed by `0x` and then the hex encoding of `k` bytes
matches the `n = 2 * k` hex pattern. -/
theorem hexPat_of_bytes (bs : List Nat) :
    matchesHexPat (2 * bs.length) (("0x" : String) ++ String.mk (hexOfBytes bs)) := by
  refine ⟨?_, ?_, ?_⟩
  · rw [data_0x_append]
    simp [hexOfBytes_length]
  · rw [data_0x_append]
    rfl
  · rw [data_0x_append]
    intro c hc
    exact hexOfBytes_isLowerHex bs c hc

theorem filterMap_ty_eq (l : List Param) :
    l.filterMap (fun p => selectorType p.ty) =
      (l.map Param.ty).filterMap selectorType := by
  induction l with
  | nil => rfl
  | cons p l ih => simp only [List.filterMap_cons, List.map_cons, ih]

theorem filterMap_ety_eq (l : List EventParam) :
    l.filterMap (fun p => selectorType p.ty) =
      (l.map EventParam.ty).filterMap selectorType := by
  induction l with
  | nil => rfl
  | cons p l ih => simp only [List.filterMap_cons, List.map_cons, ih]

/-! ## Claims about the signature encoder -/

/-- The ERC-20 transfer function description: the spec's known vector. -/
def transferFn : Function :=
  { name := "transfer"
    inputs := [⟨"to", .elem "address"⟩, ⟨"value", .elem "uint256"⟩]
    outputs := [⟨"", .elem "bool"⟩]
    stateMutability := "nonpayable" }

set_option maxRecDepth 200000

/-- Claim C1: for a function description named "transfer" with ordered
parameter types address and uint256, `create_function_signature` returns
"transfer(address,uint256)" and `create_function_selector` returns the
string "0xa9059cbb" (the first 4 bytes of the Keccak-256 digest of the
signature's UTF-8 bytes, hex-encoded and 0x-prefixed). -/
theorem transfer_signature_and_selector :
    create_function_signature transferFn = "transfer(address,uint256)" ∧
    create_function_selector transferFn = "0xa9059cbb" :=
  ⟨by decide, by decide⟩

/-- Claim C2: every function selector matches the pattern `0x` followed
by exactly 8 lowercase hex digits (10 characters in all), and every
event selector matches `0x` followed by exactly 64 lowercase hex digits
(66 characters in all). -/
theorem selector_length_invariant :
    (∀ f : Function, matchesHexPat 8 (create_function_selector f)) ∧
    (∀ e : Event, matchesHexPat 64 (create_event_selector e)) := by
  constructor
  · intro f
    unfold create_function_selector
    have h := hexPat_of_bytes ((keccak256 (strBytes (create_function_signature f))).take 4)
    rwa [List.length_take, length_keccak256] at h
  · intro e
    unfold create_event_selector
    have h := hexPat_of_bytes (keccak256 (strBytes (create_event_signature e)))
    rwa [length_keccak256] at h

/-- Witness for C2: the invariant evaluated at the transfer vector and
at a concrete event description. -/
theorem selector_length_invariant_witness :
    matchesHexPat 8 (create_function_selector transferFn) ∧
    matchesHexPat 64 (create_event_selector ⟨"Transfer", [], false⟩) :=
  ⟨selector_length_invariant.1 transferFn,
   selector_length_invariant.2 ⟨"Transfer", [], false⟩⟩

/-- Claim C3: a parameter whose canonical (selector) type cannot be
derived is omitted from the signature's comma-joined parameter list
entirely — the signature equals the one built from the same description
with that parameter removed, so there is no empty or placeholder slot,
construction does not fail, and all other parameters keep their order. -/
theorem drop_unresolvable_param (f : Function) (e : Event)
    (pre post : List Param) (p : Param)
    (epre epost : List EventParam) (q : EventParam)
    (hf : f.inputs = pre ++ p :: post) (hp : selectorType p.ty = none)
    (he : e.inputs = epre ++ q :: epost) (hq : selectorType q.ty = none) :
    create_function_signature f =
      create_function_signature { f with inputs := pre ++ post } ∧
    create_event_signature e =
      create_event_signature { e with inputs := epre ++ epost } := by
  constructor
  · unfold create_function_signature
    rw [hf]
    simp [List.filterMap_append, List.filterMap_cons, hp]
  · unfold create_event_signature
    rw [he]
    simp [List.filterMap_append, List.filterMap_cons, hq]

/-- A function description with an unresolvable second parameter. -/
def dropFn : Function :=
  { name := "foo"
    inputs := [⟨"a", .elem "uint256"⟩, ⟨"b", .unresolved⟩]
    outputs := []
    stateMutability := "view" }

/-- An event description with an unresolvable second parameter. -/
def dropEv : Event :=
  { name := "Ping"
    inputs := [⟨"a", .elem "address", false⟩, ⟨"b", .unresolved, false⟩]
    anonymous := false }

/-- Witness for C3: dropping the unresolvable parameter of `dropFn` and
`dropEv` leaves exactly the signatures of the shortened descriptions. -/
theorem drop_unresolvable_param_witness :
    create_function_signature dropFn =
      create_function_signature
        { name := "foo", inputs := [⟨"a", .elem "uint256"⟩], outputs := [],
          stateMutability := "view" } ∧
    create_event_signature dropEv =
      create_event_signature
        { name := "Ping", inputs := [⟨"a", .elem "address", false⟩],
          anonymous := false } := by
  have h := drop_unresolvable_param dropFn dropEv
    [⟨"a", .elem "uint256"⟩] [] ⟨"b", .unresolved⟩
    [⟨"a", .elem "address", false⟩] [] ⟨"b", .unresolved, false⟩
    rfl rfl rfl rfl
  exact h

/-- Claim C9: signature and selector derivation are deterministic
functions of the (name, ordered parameter type list) tuple — two
descriptions agreeing on name and ordered input types (whatever their
other fields) get identical signatures and identical selectors. -/
theorem signature_selector_deterministic (f g : Function) (e1 e2 : Event)
    (hfn : f.name = g.name)
    (hft : f.inputs.map Param.ty = g.inputs.map Param.ty)
    (hen : e1.name = e2.name)
    (het : e1.inputs.map EventParam.ty = e2.inputs.map EventParam.ty) :
    create_function_signature f = create_function_signature g ∧
    create_function_selector f = create_function_selector g ∧
    create_event_signature e1 = create_event_signature e2 ∧
    create_event_selector e1 = create_event_selector e2 := by
  have hsf : create_function_signature f = create_function_signature g := by
    unfold create_function_signature
    rw [hfn, filterMap_ty_eq, filterMap_ty_eq, hft]
  have hse : create_event_signature e1 = create_event_signature e2 := by
    unfold create_event_signature
    rw [hen, filterMap_ety_eq, filterMap_ety_eq, het]
  refine ⟨hsf, ?_, hse, ?_⟩
  · unfold create_function_selector
    rw [hsf]
  · unfold create_event_selector
    rw [hse]

/-- Witness for C9: two function descriptions differing in parameter
names, outputs and state mutability, and two event descriptions
differing in parameter names, indexing and anonymity, with identical
(name, ordered type list) each. -/
theorem signature_selector_deterministic_witness :
    create_function_signature
        ⟨"approve", [⟨"spender", .elem "address"⟩], [⟨"", .elem "bool"⟩], "nonpayable"⟩ =
      create_function_signature
        ⟨"approve", [⟨"who", .elem "address"⟩], [], "payable"⟩ ∧
    create_function_selector
        ⟨"approve", [⟨"spender", .elem "address"⟩], [⟨"", .elem "bool"⟩], "nonpayable"⟩ =
      create_function_selector
        ⟨"approve", [⟨"who", .elem "address"⟩], [], "payable"⟩ ∧
    create_event_signature
        ⟨"Ping", [⟨"x", .elem "uint256", true⟩], false⟩ =
      create_event_signature
        ⟨"Ping", [⟨"y", .elem "uint256", false⟩], true⟩ ∧
    create_event_selector
        ⟨"Ping", [⟨"x", .elem "uint256", true⟩], false⟩ =
      create_event_selector
        ⟨"Ping", [⟨"y", .elem "uint256", false⟩], true⟩ :=
  signature_selector_deterministic
    ⟨"approve", [⟨"spender", .elem "address"⟩], [⟨"", .elem "bool"⟩], "nonpayable"⟩
    ⟨"approve", [⟨"who", .elem "address"⟩], [], "payable"⟩
    ⟨"Ping", [⟨"x", .elem "uint256", true⟩], false⟩
    ⟨"Ping", [⟨"y", .elem "uint256", false⟩], true⟩
    rfl rfl rfl rfl

/-! ## Claims about the table writer and the line reader -/

/-- Claim C7: empty inputs are not errors — merging an empty list of
input files succeeds with a valid zero-row frame, and writing an empty
record slice succeeds with a valid zero-row frame that has exactly the
five string columns, in order. -/
theorem empty_inputs_are_not_errors :
    (∀ (fs : String → Option Frame) (out : String),
      concatenate_parquet_files fs [] out = .ok ⟨[]⟩) ∧
    (Frame.mk []).numRows = 0 ∧
    write_parquet [] = .ok (writeFrame []) ∧
    (writeFrame []).numRows = 0 ∧
    (writeFrame []).cols.map Prod.fst =
      ["record_type", "contract_address", "name", "signature", "selector"] :=
  ⟨fun _ _ => rfl, rfl, rfl, rfl, rfl⟩

/-- Claim C8 (counterexample): `read_addresses` does not drop blank
lines — on a reader yielding a decodable line, an undecodable line, a
blank line and another decodable line, the blank line is kept, so the
result is not the list of non-blank decodable lines. -/
theorem read_addresses_keeps_blank_lines :
    read_addresses [.ok "0xaaa", .error "invalid utf-8", .ok "", .ok "0xbbb"] =
      ["0xaaa", "", "0xbbb"] ∧
    ¬ read_addresses [.ok "0xaaa", .error "invalid utf-8", .ok "", .ok "0xbbb"] =
        ["0xaaa", "0xbbb"] := by
  constructor
  · rfl
  · decide

/-- Claim C8 (amended): `read_addresses` silently drops exactly the
lines that fail to decode as text, reporting no error for them, and
keeps every decodable line — blank lines included — in its original
position. -/
theorem read_addresses_drops_only_undecodable
    (pre post : List (Except String String)) (err line : String) :
    read_addresses (pre ++ .error err :: post) =
      read_addresses pre ++ read_addresses post ∧
    read_addresses (pre ++ .ok line :: post) =
      read_addresses pre ++ line :: read_addresses post := by
  unfold read_addresses
  constructor <;>
    simp [List.filterMap_append, List.filterMap_cons, Except.toOption]

/-! ## Claim C6: merging is order- and content-preserving -/

theorem colsRow_zip_left (i : Nat) :
    ∀ (as bs : List (String × List String)),
      as.length = bs.length → (∀ c ∈ as, i < c.2.length) →
      colsRow (List.zipWith (fun ca cb => (ca.1, ca.2 ++ cb.2)) as bs) i =
        colsRow as i := by
  intro as
  induction as with
  | nil => intro bs _ _; cases bs <;> rfl
  | cons ca as ih =>
    intro bs hlen hmem
    cases bs with
    | nil => simp at hlen
    | cons cb bs =>
      unfold colsRow
      simp only [List.zipWith_cons_cons, List.map_cons]
      congr 1
      · exact List.getD_append _ _ _ i (hmem ca (by simp))
      · exact ih bs (by simpa using hlen) (fun c hc => hmem c (by simp [hc]))

theorem colsRow_zip_right (i nA : Nat) (hge : nA ≤ i) :
    ∀ (as bs : List (String × List String)),
      as.length = bs.length → (∀ c ∈ as, c.2.length = nA) →
      colsRow (List.zipWith (fun ca cb => (ca.1, ca.2 ++ cb.2)) as bs) i =
        colsRow bs (i - nA) := by
  intro as
  induction as with
  | nil =>
    intro bs hlen _
    cases bs with
    | nil => rfl
    | cons cb bs => simp at hlen
  | cons ca as ih =>
    intro bs hlen hmem
    cases bs with
    | nil => simp at hlen
    | cons cb bs =>
      unfold colsRow
      simp only [List.zipWith_cons_cons, List.map_cons]
      congr 1
      · have h := List.getD_append_right ca.2 cb.2 "" i
          (by rw [hmem ca (by simp)]; exact hge)
        rw [h, hmem ca (by simp)]
      · exact ih bs (by simpa using hlen) (fun c hc => hmem c (by simp [hc]))

theorem zip_cols_rows (as bs : List (String × List String)) (nA nB : Nat)
    (hlen : as.length = bs.length)
    (hA : ∀ c ∈ as, c.2.length = nA) (hB : ∀ c ∈ bs, c.2.length = nB) :
    (List.range
        (colsNumRows (List.zipWith (fun ca cb => (ca.1, ca.2 ++ cb.2)) as bs))).map
      (colsRow (List.zipWith (fun ca cb => (ca.1, ca.2 ++ cb.2)) as bs)) =
    (List.range (colsNumRows as)).map (colsRow as) ++
      (List.range (colsNumRows bs)).map (colsRow bs) := by
  cases as with
  | nil =>
    cases bs with
    | nil => rfl
    | cons cb bs => simp at hlen
  | cons ca as =>
    cases bs with
    | nil => simp at hlen
    | cons cb bs =>
      have hca : ca.2.length = nA := hA ca (by simp)
      have hcb : cb.2.length = nB := hB cb (by simp)
      have hnum :
          colsNumRows (List.zipWith (fun ca cb => (ca.1, ca.2 ++ cb.2))
            (ca :: as) (cb :: bs)) = nA + nB := by
        unfold colsNumRows
        simp [List.zipWith_cons_cons, hca, hcb]
      rw [hnum]
      have hnumA : colsNumRows (ca :: as) = nA := hca
      have hnumB : colsNumRows (cb :: bs) = nB := hcb
      rw [hnumA, hnumB, List.range_add, List.map_append, List.map_map]
      congr 1
      · apply List.map_congr_left
        intro i hi
        exact colsRow_zip_left i (ca :: as) (cb :: bs) hlen
          (fun c hc => by rw [hA c hc]; exact List.mem_range.mp hi)
      · apply List.map_congr_left
        intro i _
        have h := colsRow_zip_right (nA + i) nA (Nat.le_add_right nA i)
          (ca :: as) (cb :: bs) hlen hA
        simpa using h

theorem vconcat_rows (A B : Frame)
    (hn : A.cols.map Prod.fst = B.cols.map Prod.fst)
    (hA : A.Rect) (hB : B.Rect) :
    ∃ C, vconcatFrames A B = .ok C ∧ C.rows = A.rows ++ B.rows := by
  refine ⟨⟨List.zipWith (fun ca cb => (ca.1, ca.2 ++ cb.2)) A.cols B.cols⟩, ?_, ?_⟩
  · unfold vconcatFrames
    rw [if_pos hn]
  · have hlen : A.cols.length = B.cols.length := by
      have h := congrArg List.length hn
      simpa using h
    have hA' : ∀ c ∈ A.cols, c.2.length = A.numRows := hA
    have hB' : ∀ c ∈ B.cols, c.2.length = B.numRows := hB
    exact zip_cols_rows A.cols B.cols A.numRows B.numRows hlen hA' hB'

/-- Claim C6: merging table files holding row sets A then B yields a
table whose row sequence is exactly A's rows followed by B's rows — no
row lost, duplicated, deduplicated, sorted, or reordered. -/
theorem concatenate_order_preserving
    (fs : String → Option Frame) (p1 p2 out : String) (A B : Frame)
    (h1 : fs p1 = some A) (h2 : fs p2 = some B)
    (hn : A.cols.map Prod.fst = B.cols.map Prod.fst)
    (hA : A.Rect) (hB : B.Rect) :
    ∃ C, concatenate_parquet_files fs [p1, p2] out = .ok C ∧
      C.rows = A.rows ++ B.rows := by
  obtain ⟨C, hC, hrows⟩ := vconcat_rows A B hn hA hB
  refine ⟨C, ?_, hrows⟩
  unfold concatenate_parquet_files
  have hm : readFrames fs [p1, p2] = some [A, B] := by
    simp [readFrames, h1, h2]
  rw [hm]
  simp [List.foldlM, hC]

/-- A two-row two-column frame for the merge witness. -/
def frameA : Frame := ⟨[("name", ["f", "g"]), ("selector", ["1", "2"])]⟩

/-- A one-row two-column frame for the merge witness. -/
def frameB : Frame := ⟨[("name", ["h"]), ("selector", ["3"])]⟩

/-- The file map for the merge witness. -/
def witnessFileMap (p : String) : Option Frame :=
  if p = "fa.parquet" then some frameA
  else if p = "fb.parquet" then some frameB
  else none

/-- Witness for C6: merging the two concrete frames concatenates their
rows in order. -/
theorem concatenate_order_preserving_witness :
    ∃ C, concatenate_parquet_files witnessFileMap
        ["fa.parquet", "fb.parquet"] "out.parquet" = .ok C ∧
      C.rows = frameA.rows ++ frameB.rows :=
  concatenate_order_preserving witnessFileMap "fa.parquet" "fb.parquet"
    "out.parquet" frameA frameB rfl rfl rfl
    (by unfold Frame.Rect; decide) (by unfold Frame.Rect; decide)

/-! ## Claims about the batch fetch orchestrator -/

/-- Whether the fetch capability succeeds for an address. -/
def fetchOk (fetch : String → Except String JsonAbi) (a : String) : Bool :=
  match fetch a with
  | .ok _ => true
  | .error _ => false

/-- The error text carried by a failing fetch. -/
def errOf (fetch : String → Except String JsonAbi) (a : String) : String :=
  match fetch a with
  | .ok _ => ""
  | .error e => e

/-- The path/content pairs written for one address (two files on a
successful fetch, none on a failing one). -/
def writesFor (fetch : String → Except String JsonAbi) (dir a : String) :
    List (String × Frame) :=
  match fetch a with
  | .ok abi =>
    [(functionFile dir a, writeFrame (process_contract a abi).1),
     (eventFile dir a, writeFrame (process_contract a abi).2)]
  | .error _ => []

/-- `write_parquet` can never fail: all five columns are projections of
the same record list, so `DataFrame::new` receives equal lengths. -/
theorem write_parquet_ok (rs : List AbiRecord) :
    write_parquet rs = .ok (writeFrame rs) := by
  simp [write_parquet, dataFrameNew, writeFrame, List.length_map]

theorem downloadStep_fetch_ok (fetch : String → Except String JsonAbi)
    (dir : String) (st : RunState) (a : String) (abi : JsonAbi)
    (hp : (parseAddress a).isSome = true) (hf : fetch a = .ok abi) :
    downloadStep fetch dir st a = .ok
      { function_files := st.function_files ++ [functionFile dir a]
        event_files := st.event_files ++ [eventFile dir a]
        warnings := st.warnings
        written := st.written ++ writesFor fetch dir a } := by
  obtain ⟨v, hv⟩ := Option.isSome_iff_exists.mp hp
  simp [downloadStep, hv, hf, write_parquet_ok, writesFor]

theorem downloadStep_fetch_error (fetch : String → Except String JsonAbi)
    (dir : String) (st : RunState) (a e : String)
    (hp : (parseAddress a).isSome = true) (hf : fetch a = .error e) :
    downloadStep fetch dir st a =
      .ok { st with warnings := st.warnings ++ [fetchWarning a e] } := by
  obtain ⟨v, hv⟩ := Option.isSome_iff_exists.mp hp
  simp [downloadStep, hv, hf]

theorem downloadLoop_cons (fetch : String → Except String JsonAbi)
    (dir : String) (st st2 : RunState) (a : String) (rest : List String)
    (h : downloadStep fetch dir st a = .ok st2) :
    downloadLoop fetch dir st (a :: rest) = downloadLoop fetch dir st2 rest := by
  rw [downloadLoop, h]

/-- Closed form of the loop when every remaining address parses: the
successes contribute the file pairs in order, the failures contribute
the warnings in order, and only successes write files. -/
theorem downloadLoop_ok (fetch : String → Except String JsonAbi) (dir : String) :
    ∀ (addrs : List String) (st : RunState),
      (∀ a ∈ addrs, (parseAddress a).isSome = true) →
      downloadLoop fetch dir st addrs = .ok
        { function_files := st.function_files ++
            (addrs.filter (fetchOk fetch)).map (functionFile dir)
          event_files := st.event_files ++
            (addrs.filter (fetchOk fetch)).map (eventFile dir)
          warnings := st.warnings ++
            (addrs.filter (fun a => !fetchOk fetch a)).map
              (fun a => fetchWarning a (errOf fetch a))
          written := st.written ++ addrs.flatMap (writesFor fetch dir) } := by
  intro addrs
  induction addrs with
  | nil => intro st _; simp [downloadLoop]
  | cons a rest ih =>
    intro st hp
    have hpa : (parseAddress a).isSome = true := hp a (by simp)
    have hrest : ∀ b ∈ rest, (parseAddress b).isSome = true :=
      fun b hb => hp b (by simp [hb])
    cases hf : fetch a with
    | ok abi =>
      rw [downloadLoop_cons fetch dir st _ a rest
          (downloadStep_fetch_ok fetch dir st a abi hpa hf),
        ih _ hrest]
      simp [List.filter_cons, fetchOk, hf, writesFor, List.flatMap_cons,
        List.append_assoc]
    | error e =>
      rw [downloadLoop_cons fetch dir st _ a rest
          (downloadStep_fetch_error fetch dir st a e hpa hf),
        ih _ hrest]
      simp [List.filter_cons, fetchOk, hf, errOf, writesFor,
        List.flatMap_cons, List.append_assoc]

/-- `functionFile` is injective in the address. -/
theorem functionFile_inj (dir a b : String)
    (h : functionFile dir a = functionFile dir b) : a = b := by
  have h2 := congrArg String.data h
  simp only [functionFile, String.data_append] at h2
  exact String.ext (List.append_cancel_left (List.append_cancel_right h2))

/-- `eventFile` is injective in the address. -/
theorem eventFile_inj (dir a b : String)
    (h : eventFile dir a = eventFile dir b) : a = b := by
  have h2 := congrArg String.data h
  simp only [eventFile, String.data_append] at h2
  exact String.ext (List.append_cancel_left (List.append_cancel_right h2))

/-- A function-table path is never an event-table path: the two live in
different subdirectories. -/
theorem functionFile_ne_eventFile (dir a b : String) :
    functionFile dir a ≠ eventFile dir b := by
  intro h
  have h2 := congrArg String.data h
  simp only [functionFile, eventFile, String.data_append,
    List.append_assoc] at h2
  have h3 := List.append_cancel_left h2
  have h4 : (("/functions/" : String).data ++
        (a.data ++ ("_functions.parquet" : String).data)).getD 1 ' ' =
      (("/events/" : String).data ++
        (b.data ++ ("_events.parquet" : String).data)).getD 1 ' ' := by
    rw [h3]
  rw [List.getD_append _ _ _ 1 (by decide),
    List.getD_append _ _ _ 1 (by decide)] at h4
  exact absurd h4 (by decide)

/-- Claim C4: when fetching fails for exactly one of N well-formed
addresses, the run still returns successfully; exactly one warning — the
one naming the failed address and the error — is logged; the failed
address contributes zero output files, and the returned lists are the
file pairs of the N−1 succeeding addresses in their original relative
order. -/
theorem download_abis_partial_failure
    (fetch : String → Except String JsonAbi) (dir : String)
    (pre post : List String) (bad e : String)
    (hparse : ∀ a ∈ pre ++ bad :: post, (parseAddress a).isSome = true)
    (hpre : ∀ a ∈ pre, fetchOk fetch a = true)
    (hbad : fetch bad = .error e)
    (hpost : ∀ a ∈ post, fetchOk fetch a = true) :
    ∃ st, download_abis fetch (pre ++ bad :: post) dir = .ok st ∧
      st.function_files = (pre ++ post).map (functionFile dir) ∧
      st.event_files = (pre ++ post).map (eventFile dir) ∧
      st.function_files.length = (pre ++ bad :: post).length - 1 ∧
      st.event_files.length = (pre ++ bad :: post).length - 1 ∧
      st.warnings = [fetchWarning bad e] ∧
      st.written.map Prod.fst =
        (pre ++ post).flatMap
          (fun a => [functionFile dir a, eventFile dir a]) ∧
      functionFile dir bad ∉ st.written.map Prod.fst ∧
      eventFile dir bad ∉ st.written.map Prod.fst := by
  have hbadOk : fetchOk fetch bad = false := by simp [fetchOk, hbad]
  have hfilter : (pre ++ bad :: post).filter (fetchOk fetch) = pre ++ post := by
    rw [List.filter_append, List.filter_cons]
    rw [List.filter_eq_self.mpr hpre, List.filter_eq_self.mpr hpost, hbadOk]
    simp
  have hfails :
      (pre ++ bad :: post).filter (fun a => !fetchOk fetch a) = [bad] := by
    rw [List.filter_append, List.filter_cons]
    have h1 : pre.filter (fun a => !fetchOk fetch a) = [] :=
      List.filter_eq_nil_iff.mpr (fun a ha => by simp [hpre a ha])
    have h2 : post.filter (fun a => !fetchOk fetch a) = [] :=
      List.filter_eq_nil_iff.mpr (fun a ha => by simp [hpost a ha])
    rw [h1, h2, hbadOk]
    simp
  have hloop := downloadLoop_ok fetch dir (pre ++ bad :: post)
    ⟨[], [], [], []⟩ hparse
  have hwf : ((pre ++ bad :: post).flatMap (writesFor fetch dir)).map Prod.fst =
      (pre ++ post).flatMap (fun a => [functionFile dir a, eventFile dir a]) := by
    rw [List.map_flatMap, List.flatMap_append, List.flatMap_cons,
      List.flatMap_append]
    have hb : (writesFor fetch dir bad).map Prod.fst = [] := by
      simp [writesFor, hbad]
    rw [hb]
    have hgen : ∀ l : List String, (∀ a ∈ l, fetchOk fetch a = true) →
        l.flatMap (fun a => (writesFor fetch dir a).map Prod.fst) =
          l.flatMap (fun a => [functionFile dir a, eventFile dir a]) := by
      intro l hl
      induction l with
      | nil => rfl
      | cons x xs ih =>
        have hx := hl x (by simp)
        have hxs : ∀ b ∈ xs, fetchOk fetch b = true :=
          fun b hb => hl b (List.mem_cons_of_mem x hb)
        cases hfx : fetch x with
        | ok abi =>
          rw [List.flatMap_cons, List.flatMap_cons, ih hxs]
          simp [writesFor, hfx]
        | error e2 => simp [fetchOk, hfx] at hx
    rw [hgen pre hpre, hgen post hpost]
    simp
  have hmemfn : functionFile dir bad ∉
      (pre ++ post).flatMap (fun a => [functionFile dir a, eventFile dir a]) := by
    intro hmem
    obtain ⟨a, ha, hin⟩ := List.mem_flatMap.mp hmem
    have haOk : fetchOk fetch a = true := by
      rcases List.mem_append.mp ha with h | h
      · exact hpre a h
      · exact hpost a h
    rcases List.mem_cons.mp hin with hh | hh
    · have := functionFile_inj dir bad a hh
      rw [← this] at haOk
      rw [hbadOk] at haOk
      exact absurd haOk (by decide)
    · rcases List.mem_cons.mp hh with hh2 | hh2
      · exact functionFile_ne_eventFile dir bad a hh2
      · simp at hh2
  have hmemev : eventFile dir bad ∉
      (pre ++ post).flatMap (fun a => [functionFile dir a, eventFile dir a]) := by
    intro hmem
    obtain ⟨a, ha, hin⟩ := List.mem_flatMap.mp hmem
    have haOk : fetchOk fetch a = true := by
      rcases List.mem_append.mp ha with h | h
      · exact hpre a h
      · exact hpost a h
    rcases List.mem_cons.mp hin with hh | hh
    · exact (functionFile_ne_eventFile dir a bad) hh.symm
    · rcases List.mem_cons.mp hh with hh2 | hh2
      · have := eventFile_inj dir bad a hh2
        rw [← this] at haOk
        rw [hbadOk] at haOk
        exact absurd haOk (by decide)
      · simp at hh2
  refine ⟨⟨(pre ++ post).map (functionFile dir), (pre ++ post).map (eventFile dir),
    [fetchWarning bad e], (pre ++ bad :: post).flatMap (writesFor fetch dir)⟩,
    ?_, rfl, rfl, ?_, ?_, rfl, ?_, ?_, ?_⟩
  · refine hloop.trans ?_
    rw [hfilter, hfails]
    simp [errOf, hbad]
  · rw [List.length_map, List.length_append, List.length_append,
      List.length_cons]
    omega
  · rw [List.length_map, List.length_append, List.length_append,
      List.length_cons]
    omega
  · exact hwf
  · rw [hwf]; exact hmemfn
  · rw [hwf]; exact hmemev

/-- A well-formed address for the orchestrator witnesses. -/
def addrOne : String := "0x1111111111111111111111111111111111111111"

/-- A second well-formed address, the one whose fetch fails. -/
def addrTwo : String := "0x2222222222222222222222222222222222222222"

/-- A third well-formed address. -/
def addrThree : String := "0x3333333333333333333333333333333333333333"

/-- A fetch capability failing exactly on `addrTwo`. -/
def flakyFetch : String → Except String JsonAbi :=
  fun a => if a = addrTwo then .error "rate limited" else .ok ⟨[], []⟩

/-- Witness for C4: of three well-formed addresses with the middle fetch
failing, the run succeeds with the first and third addresses' file pairs
and one warning. -/
theorem download_abis_partial_failure_witness :
    ∃ st, download_abis flakyFetch ([addrOne] ++ addrTwo :: [addrThree]) "out" =
        .ok st ∧
      st.function_files = ([addrOne] ++ [addrThree]).map (functionFile "out") ∧
      st.event_files = ([addrOne] ++ [addrThree]).map (eventFile "out") ∧
      st.function_files.length = ([addrOne] ++ addrTwo :: [addrThree]).length - 1 ∧
      st.event_files.length = ([addrOne] ++ addrTwo :: [addrThree]).length - 1 ∧
      st.warnings = [fetchWarning addrTwo "rate limited"] ∧
      st.written.map Prod.fst =
        ([addrOne] ++ [addrThree]).flatMap
          (fun a => [functionFile "out" a, eventFile "out" a]) ∧
      functionFile "out" addrTwo ∉ st.written.map Prod.fst ∧
      eventFile "out" addrTwo ∉ st.written.map Prod.fst :=
  download_abis_partial_failure flakyFetch "out" [addrOne] [addrThree] addrTwo
    "rate limited" (by decide) (by decide) rfl (by decide)

/-- The loop aborts with the parse error of the first malformed address,
whatever comes after it. -/
theorem downloadLoop_parse_error (fetch : String → Except String JsonAbi)
    (dir bad : String) (post : List String) (hbad : parseAddress bad = none) :
    ∀ (pre : List String) (st : RunState),
      (∀ a ∈ pre, (parseAddress a).isSome = true) →
      downloadLoop fetch dir st (pre ++ bad :: post) =
        .error (addressError bad) := by
  intro pre
  induction pre with
  | nil =>
    intro st _
    rw [List.nil_append]
    simp [downloadLoop, downloadStep, hbad]
  | cons a rest ih =>
    intro st hp
    have hpa : (parseAddress a).isSome = true := hp a (by simp)
    have hrest : ∀ b ∈ rest, (parseAddress b).isSome = true :=
      fun b hb => hp b (List.mem_cons_of_mem a hb)
    rw [List.cons_append]
    cases hf : fetch a with
    | ok abi =>
      rw [downloadLoop_cons fetch dir st _ a _
        (downloadStep_fetch_ok fetch dir st a abi hpa hf)]
      exact ih _ hrest
    | error e =>
      rw [downloadLoop_cons fetch dir st _ a _
        (downloadStep_fetch_error fetch dir st a e hpa hf)]
      exact ih _ hrest

/-- Claim C5: a malformed address string (one that fails to parse into
the canonical 20-byte representation) is fatal: `download_abis` returns
the parse error immediately, aborting the whole run with no per-address
recovery, however many addresses remain unprocessed. -/
theorem download_abis_malformed_fatal
    (fetch : String → Except String JsonAbi) (dir : String)
    (pre post : List String) (bad : String)
    (hpre : ∀ a ∈ pre, (parseAddress a).isSome = true)
    (hbad : parseAddress bad = none) :
    download_abis fetch (pre ++ bad :: post) dir = .error (addressError bad) :=
  downloadLoop_parse_error fetch dir bad post hbad pre ⟨[], [], [], []⟩ hpre

/-- Witness for C5: a run whose second address is not hexadecimal fails
with its parse error even though the remaining address would fetch fine. -/
theorem download_abis_malformed_fatal_witness :
    download_abis flakyFetch ([addrOne] ++ "nothex" :: [addrThree]) "out" =
      .error (addressError "nothex") :=
  download_abis_malformed_fatal flakyFetch "out" [addrOne] [addrThree]
    "nothex" (by decide) rfl

/-- Whenever the loop succeeds, the file lists are the per-address pairs
of a subsequence of the processed addresses, in order. -/
theorem downloadLoop_paired (fetch : String → Except String JsonAbi)
    (dir : String) :
    ∀ (addrs : List String) (st0 st : RunState),
      downloadLoop fetch dir st0 addrs = .ok st →
      ∃ succs : List String, succs.Sublist addrs ∧
        st.function_files = st0.function_files ++ succs.map (functionFile dir) ∧
        st.event_files = st0.event_files ++ succs.map (eventFile dir) := by
  intro addrs
  induction addrs with
  | nil =>
    intro st0 st h
    rw [downloadLoop] at h
    injection h with h2
    subst h2
    exact ⟨[], List.nil_sublist _, by simp, by simp⟩
  | cons a rest ih =>
    intro st0 st h
    cases hp : parseAddress a with
    | none =>
      rw [downloadLoop,
        show downloadStep fetch dir st0 a = .error (addressError a) from by
          simp [downloadStep, hp]] at h
      simp at h
    | some v =>
      have hpa : (parseAddress a).isSome = true := by simp [hp]
      cases hf : fetch a with
      | ok abi =>
        rw [downloadLoop_cons fetch dir st0 _ a rest
          (downloadStep_fetch_ok fetch dir st0 a abi hpa hf)] at h
        obtain ⟨succs, hsub, h1, h2⟩ := ih _ st h
        refine ⟨a :: succs, List.Sublist.cons₂ a hsub, ?_, ?_⟩
        · rw [h1]; simp [List.append_assoc]
        · rw [h2]; simp [List.append_assoc]
      | error e =>
        rw [downloadLoop_cons fetch dir st0 _ a rest
          (downloadStep_fetch_error fetch dir st0 a e hpa hf)] at h
        obtain ⟨succs, hsub, h1, h2⟩ := ih _ st h
        exact ⟨succs, List.Sublist.cons a hsub, h1, h2⟩

/-- Claim C10: whenever `download_abis` returns successfully, the two
returned lists have equal length, and index for index they are the
function-table and event-table paths of the same address — the
succeeding addresses, as a subsequence of the input in input order. -/
theorem download_abis_paired (fetch : String → Except String JsonAbi)
    (addresses : List String) (dir : String) (st : RunState)
    (h : download_abis fetch addresses dir = .ok st) :
    st.function_files.length = st.event_files.length ∧
    ∃ succs : List String, succs.Sublist addresses ∧
      st.function_files = succs.map (functionFile dir) ∧
      st.event_files = succs.map (eventFile dir) := by
  obtain ⟨succs, hsub, h1, h2⟩ :=
    downloadLoop_paired fetch dir addresses ⟨[], [], [], []⟩ st h
  simp only [List.nil_append] at h1 h2
  refine ⟨?_, succs, hsub, h1, h2⟩
  rw [h1, h2, List.length_map, List.length_map]

/-- A fetch capability that always succeeds with an empty interface. -/
def emptyAbiFetch : String → Except String JsonAbi :=
  fun _ => .ok ⟨[], []⟩

/-- The run state produced for the single address `addrOne`. -/
def oneAddrRun : RunState :=
  ⟨[functionFile "out" addrOne], [eventFile "out" addrOne], [],
   [(functionFile "out" addrOne, writeFrame []),
    (eventFile "out" addrOne, writeFrame [])]⟩

/-- Witness for C10: the single-address run pairs the two lists index
for index. -/
theorem download_abis_paired_witness :
    oneAddrRun.function_files.length = oneAddrRun.event_files.length ∧
    ∃ succs : List String, succs.Sublist [addrOne] ∧
      oneAddrRun.function_files = succs.map (functionFile "out") ∧
      oneAddrRun.event_files = succs.map (eventFile "out") :=
  download_abis_paired emptyAbiFetch [addrOne] "out" oneAddrRun rfl

end AbiDownloader
